import Mathlib

/-! Verification of `tooling/run-clang-tidy.py`.

A shallow embedding of the parallel clang-tidy runner
(`src/tooling/run-clang-tidy.py`) and proofs about its behaviour.

The script's components, and where they are embedded here:

* `get_tidy_invocation` (lines 71-78): pure argument-vector builder,
  embedded directly as a Lean function on `List String`.
* the file-selection predicate (lines 150, 166-168):
  `re.compile('|'.join(args.files))` followed by `.search(name)`; embedded
  by a small regular-expression engine (Brzozowski derivatives) together
  with a parser for the regex fragment the script's patterns use
  (literal characters, `.`, postfix `*`, alternation `|`).
* `merge_replacement_files` (lines 81-103): embedded as a function on the
  parsed contents of the directory's `*.yaml` files.
* the dispatcher / worker-pool (lines 106-121, 152-181): embedded as a
  small-step transition system over a state holding the not-yet-enqueued
  files, the bounded queue's contents and the list of processed tasks,
  plus an event-trace model of the lock-protected output sink, and an
  `Except`-based model of the `try`/`except KeyboardInterrupt` control
  flow of `main`.
-/

namespace RunClangTidy

/-! Section: Regular expressions (model of the `re` usage on lines 150 and 167)

The script builds one regex with `re.compile('|'.join(args.files))` and
selects a candidate name with `file_name_re.search(name)`: the name is
selected iff the pattern matches *somewhere* in the name (unanchored
search, Python `re.search` semantics). -/

/-- Regex abstract syntax: the fragment needed for the script's patterns.
`none_` is the empty language (needed for derivatives only; the parser
never produces it). -/
inductive RE where
  | none_ : RE
  | eps : RE
  | ch : Char → RE
  | any : RE
  | cat : RE → RE → RE
  | alt : RE → RE → RE
  | star : RE → RE
deriving Repr, DecidableEq

/-- Does the regex accept the empty string? -/
def RE.nullable : RE → Bool
  | .none_ => false
  | .eps => true
  | .ch _ => false
  | .any => false
  | .cat r s => r.nullable && s.nullable
  | .alt r s => r.nullable || s.nullable
  | .star _ => true

/-- Brzozowski derivative of a regex with respect to a character. -/
def RE.deriv : RE → Char → RE
  | .none_, _ => .none_
  | .eps, _ => .none_
  | .ch a, c => if a = c then .eps else .none_
  | .any, _ => .eps
  | .cat r s, c =>
      if r.nullable then .alt (.cat (r.deriv c) s) (s.deriv c)
      else .cat (r.deriv c) s
  | .alt r s, c => .alt (r.deriv c) (s.deriv c)
  | .star r, c => .cat (r.deriv c) (.star r)

/-- Does the regex match some (possibly empty) prefix of the string? -/
def RE.matchesHere : RE → List Char → Bool
  | r, [] => r.nullable
  | r, c :: cs => r.nullable || (r.deriv c).matchesHere cs

/-- Python `re.search` semantics: the regex matches some substring, i.e.
some prefix of some suffix. -/
def RE.research : RE → List Char → Bool
  | r, [] => r.nullable
  | r, c :: cs => r.matchesHere (c :: cs) || r.research cs

/-- Characters the parser refuses to treat as plain literals: regex
metacharacters of Python `re` outside the supported fragment
(`.` and postfix `*` and `|` are supported; anchors, groups, classes,
escapes and counted repetition are not). -/
def isMeta (c : Char) : Bool :=
  c = '*' || c = '|' || c = '+' || c = '?' || c = '(' || c = ')' ||
  c = '[' || c = ']' || c = '^' || c = '$' || c = '\\'

/-- A character that may start an atom of the supported fragment. -/
def isAtomChar (c : Char) : Bool := c = '.' || !isMeta c

/-- The regex atom denoted by a single character: `.` is "any character",
everything else is a literal. -/
def atomOf (c : Char) : RE := if c = '.' then RE.any else RE.ch c

/-- Parse one alternation-free branch: a sequence of atoms, each possibly
followed by `*`. Returns `none` outside the supported fragment. -/
def parseAtoms : List Char → Option RE
  | [] => some .eps
  | c :: '*' :: rest =>
      if isAtomChar c then (parseAtoms rest).map (.cat (.star (atomOf c))) else none
  | c :: rest =>
      if isAtomChar c then (parseAtoms rest).map (.cat (atomOf c)) else none

/-- Split a character list at every `|` (top-level alternation; the
supported fragment has no groups, so every `|` is top-level). -/
def splitBar : List Char → List (List Char)
  | [] => [[]]
  | c :: rest =>
      if c = '|' then [] :: splitBar rest
      else
        match splitBar rest with
        | [] => [[c]]
        | h :: t => (c :: h) :: t

/-- Fold a nonempty list of branches into one alternation. -/
def altList : List RE → RE
  | [] => .none_
  | [r] => r
  | r :: rs => .alt r (altList rs)

/-- Model of line 150, `re.compile('|'.join(args.files))`: join the
positional patterns with `|`, split at `|` and parse each branch.
Returns `none` if some branch falls outside the supported fragment. -/
def compileFileRe (patterns : List String) : Option RE :=
  ((splitBar (List.intercalate ['|'] (patterns.map String.toList))).mapM parseAtoms).map altList

/-- Model of line 167, `file_name_re.search(name)`: a candidate name is
selected iff the compiled alternation matches somewhere in the name. -/
def fileSelect (patterns : List String) (name : String) : Bool :=
  match compileFileRe patterns with
  | some r => r.research name.toList
  | none => false

/-! Section: Invocation builder (lines 71-78) -/

/-- Embedding of `get_tidy_invocation(f, clang_tidy_binary, header_filter)`
(lines 71-78). `header_filter` is `None` (here `none`) when the
`-header-filter` option is absent (its argparse default, line 132). -/
def get_tidy_invocation (f clang_tidy_binary : String)
    (header_filter : Option String) : List String :=
  let start := [clang_tidy_binary, f]
  let start :=
    match header_filter with
    | some hf => start ++ ["-header-filter=" ++ hf]
    | none => start
  let start := start ++ ["--"]
  start ++ ["-Icugl/include"]

/-! Section: Replacement-file merging (lines 81-103)

`merge_replacement_files(tmpdir, mergefile)` iterates over the `*.yaml`
files of `tmpdir`, parses each with `yaml.safe_load`, skips falsy
contents (`if not content: continue`), and collects
`content.get('Diagnostics', [])`. We embed the directory as the list of
parsed contents of its `*.yaml` files: `none` for a falsy parse (empty
file), `some d` for a truthy mapping `d`, where `d.diagnostics` is
`none` when the mapping has no `Diagnostics` key. The file written to
`mergefile` is embedded as a `MergeOutput`. -/

/-- A truthy parsed YAML mapping, as far as the merger inspects it:
`Diag` is the (opaque) type of one entry of a `Diagnostics` list. -/
structure YamlDoc (Diag : Type) where
  diagnostics : Option (List Diag)

/-- What `merge_replacement_files` leaves in `mergefile`: either a dumped
mapping with keys `MainSourceFile` and `Diagnostics`, or an emptied
(truncated) file. -/
inductive MergeOutput (Diag : Type) where
  | dumped (mainSourceFile : String) (diagnostics : List Diag)
  | emptied
deriving DecidableEq

/-- Embedding of `merge_replacement_files` (lines 81-103): the loop over
the directory's `*.yaml` contents builds `merged` with `list.extend`,
then either dumps `{'MainSourceFile': '', 'Diagnostics': merged}` or
truncates the target. -/
def merge_replacement_files {Diag : Type}
    (yamlContents : List (Option (YamlDoc Diag))) : MergeOutput Diag :=
  let merged := yamlContents.foldl
    (fun acc content =>
      match content with
      | none => acc
      | some doc => acc ++ (doc.diagnostics.getD []))
    []
  if merged.isEmpty then .emptied
  else .dumped "" merged

/-! Section: Dispatcher and worker pool (lines 106-121, 152-171)

`main` creates `task_queue = queue.Queue(max_task)` (bounded, capacity =
pool size), starts `max_task` daemon workers, enqueues every candidate
name matching `file_name_re` (lines 166-168), and waits on
`task_queue.join()`. Each worker loops: `queue.get()`, run one
clang-tidy subprocess for the name, report, `queue.task_done()`
(lines 108-121).

We embed this as a small-step transition system. A state holds the
suffix of the candidate list not yet offered to the queue, the queue's
current contents (FIFO list) and the sequence of processed tasks, each
tagged with the id of the worker that consumed it. A schedule is a list
of actions: `enq` (the main thread enqueues the next matching candidate;
blocked while the queue holds `maxTask` items) and `deq w` (worker
`w < maxTask` pops the head and launches one clang-tidy invocation for
it). A run is *complete* when every candidate was offered and the queue
is drained: that is the state in which `task_queue.join()` returns. -/

/-- Dispatcher state: `toEnqueue` = candidates not yet offered to the
queue, `queued` = current queue contents (front first), `processed` =
tasks already popped, each paired with the consuming worker's id. One
clang-tidy subprocess is launched per `processed` entry (lines 109-112). -/
structure DispatchState where
  toEnqueue : List String
  queued : List String
  processed : List (Nat × String)
deriving DecidableEq, Repr

/-- One scheduling decision: the main thread enqueues the next candidate,
or worker `w` pops the queue's head. -/
inductive SchedAction where
  | enq : SchedAction
  | deq : Nat → SchedAction
deriving DecidableEq, Repr

/-- One step of the dispatcher/worker system with pool size (= queue
capacity) `maxTask`. `none` means the chosen action is not enabled:
enqueueing into a full queue or popping an empty one blocks, and only
workers `0 .. maxTask-1` exist. Candidates not matching the filter are
skipped by the enqueue loop (line 167). -/
def dispatchStep (maxTask : Nat) (patterns : List String)
    (s : DispatchState) : SchedAction → Option DispatchState
  | .enq =>
      match s.toEnqueue with
      | [] => none
      | name :: rest =>
          if fileSelect patterns name then
            if s.queued.length < maxTask then
              some { s with toEnqueue := rest, queued := s.queued ++ [name] }
            else none
          else some { s with toEnqueue := rest }
  | .deq w =>
      if w < maxTask then
        match s.queued with
        | [] => none
        | name :: rest =>
            some { s with queued := rest, processed := s.processed ++ [(w, name)] }
      else none

/-- Run a schedule from a state; `none` if some action is not enabled. -/
def runSched (maxTask : Nat) (patterns : List String) :
    DispatchState → List SchedAction → Option DispatchState
  | s, [] => some s
  | s, a :: acts =>
      match dispatchStep maxTask patterns s a with
      | some s2 => runSched maxTask patterns s2 acts
      | none => none

/-- The initial state of a run of `main` over candidate list `files`
(the `-cpp` arguments, line 144/166). -/
def initDispatch (files : List String) : DispatchState :=
  { toEnqueue := files, queued := [], processed := [] }

/-- Predicate: `task_queue.join()` has returned — every candidate was offered and the
queue is drained. -/
def DispatchState.isDrained (s : DispatchState) : Bool :=
  s.toEnqueue.isEmpty && s.queued.isEmpty

/-- The failure list built by the workers (line 114-115): each processed
task whose invocation exited non-zero appends its name. `results n` is
the exit status of the clang-tidy subprocess for file `n`. -/
def failedFiles (results : String → Nat) (processed : List (Nat × String)) :
    List String :=
  (processed.map Prod.snd).filter (fun n => results n ≠ 0)

/-- Lines 152, 172-173, 186: `return_code` starts at 0, becomes 1 if
`failed_files` is non-empty, and is passed to `sys.exit`. -/
def mainExitCode (results : String → Nat) (processed : List (Nat × String)) :
    Nat :=
  if (failedFiles results processed).length ≠ 0 then 1 else 0

/-! Section: Output sink (lines 116-120)

Each worker reports under `with lock:`: one `sys.stdout.write` of the
space-joined invocation plus `'\n'` plus the decoded stdout; then, if the
captured stderr is non-empty, `sys.stdout.flush()` followed by
`sys.stderr.write` — all before releasing the lock. We embed executions
as traces of events, each an action tagged with the thread that performs
it, and validity of a trace with respect to the lock discipline: stream
operations are performed only while holding the lock, `acquire` only
succeeds when the lock is free. Actions that the code performs outside
the lock (`failed_files.append`, `queue.task_done`, running the
subprocess) need no lock. -/

/-- An action a worker thread can take, as far as the output sink is
concerned. -/
inductive SinkAction where
  | acquire : SinkAction
  | release : SinkAction
  | writeOut : String → SinkAction
  | flushOut : SinkAction
  | writeErr : String → SinkAction
  | appendFail : String → SinkAction
  | taskDone : SinkAction
deriving DecidableEq, Repr

/-- A trace event: which thread performed which action. -/
structure Ev where
  tid : Nat
  act : SinkAction
deriving DecidableEq, Repr

/-- Stream operations guarded by `with lock:` in `run_tidy`
(lines 116-120). -/
def SinkAction.needsLock : SinkAction → Bool
  | .writeOut _ => true
  | .flushOut => true
  | .writeErr _ => true
  | _ => false

/-- One event against the lock state (`none` = free, `some t` = held by
thread `t`). Returns the new lock state, or `none` if the event cannot
occur: acquiring a held lock or releasing a lock one does not hold
blocks/faults, and a guarded stream operation is only performed by the
lock holder (it occurs inside that thread's `with lock:` block). -/
def sinkStep (lock : Option Nat) (e : Ev) : Option (Option Nat) :=
  match e.act with
  | .acquire =>
      match lock with
      | none => some (some e.tid)
      | some _ => none
  | .release =>
      match lock with
      | some o => if o = e.tid then some none else none
      | none => none
  | a =>
      if a.needsLock then
        match lock with
        | some o => if o = e.tid then some lock else none
        | none => none
      else some lock

/-- Evaluate a trace from a lock state; `none` when some event cannot
occur. -/
def evalTrace : Option Nat → List Ev → Option (Option Nat)
  | lock, [] => some lock
  | lock, e :: es =>
      match sinkStep lock e with
      | some lock2 => evalTrace lock2 es
      | none => none

/-- A trace is valid from a lock state when every event can occur. -/
def validTrace (lock : Option Nat) (tr : List Ev) : Bool :=
  (evalTrace lock tr).isSome

/-- The events thread `t` performs for one report (lines 116-120): enter
`with lock:`, write the space-joined invocation, a newline and the
decoded stdout in a single `sys.stdout.write`; if stderr is non-empty,
flush stdout and write stderr; leave the block. -/
def emitEvents (t : Nat) (invocation : List String) (out err : String) :
    List Ev :=
  ⟨t, .acquire⟩ ::
  ⟨t, .writeOut (String.intercalate " " invocation ++ "\n" ++ out)⟩ ::
  ((if err.length > 0 then [⟨t, .flushOut⟩, ⟨t, .writeErr err⟩] else []) ++
   [⟨t, .release⟩])

/-! Section: Worker body and launch failure (lines 106-121)

`run_tidy` loops forever: `name = queue.get()`, build the invocation,
`subprocess.Popen(...)`, `communicate()`, record a failure if
`returncode != 0`, report under the lock, `queue.task_done()`. There is
no `try`/`except` in the loop: if `Popen` raises (for instance
`OSError` because the binary does not exist), the exception propagates
out of `run_tidy` and ends the worker thread; neither
`failed_files.append` nor `queue.task_done` runs for that task. We embed
one loop iteration as a function that either returns the updated
failure list, the events emitted under the lock and the fact that
`task_done` was called, or propagates the launcher's exception. -/

/-- What `Popen` + `communicate` produce for one invocation: the exit
status and the captured stdout/stderr bytes (decoded). -/
structure ProcResult where
  returncode : Nat
  stdout : String
  stderr : String

/-- A Python exception escaping an expression. -/
inductive PyExc where
  | oserror : String → PyExc
  | keyboardInterrupt : PyExc
  | typeError : String → PyExc
deriving DecidableEq, Repr

/-- What one loop iteration of `run_tidy` leaves behind: the updated
`failed_files`, the sink events emitted under the lock, and whether
`queue.task_done()` ran. -/
structure WorkerIterResult where
  failed_files : List String
  emitted : List Ev
  task_done : Bool

/-- Embedding of one iteration of the `while True:` loop of `run_tidy`
(lines 108-121), for worker thread `t` processing file `name`. `launch`
models `subprocess.Popen(invocation, ...)` + `communicate()`: it either
returns the process result or raises (e.g. `OSError` when the binary
cannot be started). The iteration has no exception handler, so a raise
propagates and nothing after the `Popen` call runs. -/
def run_tidy_iter (launch : List String → Except PyExc ProcResult)
    (clang_tidy_binary : String) (header_filter : Option String)
    (t : Nat) (name : String) (failed_files : List String) :
    Except PyExc WorkerIterResult := do
  let invocation := get_tidy_invocation name clang_tidy_binary header_filter
  let proc ← launch invocation
  let failed_files :=
    if proc.returncode ≠ 0 then failed_files ++ [name] else failed_files
  pure { failed_files := failed_files
         emitted := emitEvents t invocation proc.stdout proc.stderr
         task_done := true }

/-- A launcher for which the external binary cannot be started:
`subprocess.Popen` raises `OSError` (errno 2). -/
def missingBinaryLauncher : List String → Except PyExc ProcResult :=
  fun _ => .error (.oserror "No such file or directory")

/-! Section: `main` control flow (lines 124-186)

Argument parsing: `-cpp` is declared with `nargs='*'` and no default
(line 139), so `args.cpp` is `None` when the option is absent and a
(possibly empty) list when present; `files = args.cpp` (line 144).

The `try:` block spawns the workers, runs the enqueue loop
`for name in files: ...` (lines 166-168), waits on `task_queue.join()`
(line 171) and sets `return_code` (lines 172-173). Only
`KeyboardInterrupt` is handled (line 175): the handler prints
`'\nCtrl-C detected, goodbye.'` and calls `os.kill(0, 9)`, killing the
whole process group with SIGKILL — control never reaches
`sys.exit(return_code)` and `task_queue.join()` never reports a drained
queue. Any other exception (such as the `TypeError` from iterating over
`None` when `-cpp` is absent) is uncaught and terminates the process
with a traceback.

We model the delivery of an external interrupt by an oracle
`intr : Option Nat`: `some k` means a `KeyboardInterrupt` is raised in
the main thread after it has handled `k` more candidates — during the
enqueue loop if it is still running at that point, otherwise while
blocked in `task_queue.join()`. `none` means no interrupt is ever
delivered. -/

/-- How a run of the script ends, observed from outside. -/
inductive Outcome where
  | exited : Nat → Outcome
  | killedBySignal : Nat → String → Outcome
  | uncaughtException : PyExc → Outcome
deriving DecidableEq, Repr

/-- The enqueue loop (lines 166-168) threaded with the interrupt oracle:
raises `KeyboardInterrupt` when the countdown hits zero with candidates
still left, and otherwise returns the remaining countdown. -/
def enqueuePhase : List String → Option Nat → Except PyExc (Option Nat)
  | [], k => .ok k
  | _ :: _, some 0 => .error .keyboardInterrupt
  | _ :: rest, some (k + 1) => enqueuePhase rest (some k)
  | _ :: rest, none => enqueuePhase rest none

/-- Model of `task_queue.join()` (line 171) with a pending interrupt oracle: an
interrupt not consumed during the enqueue loop is raised while the main
thread blocks in `join`; with no pending interrupt, `join` returns once
the queue is drained. -/
def joinPhase : Option Nat → Except PyExc Unit
  | some _ => .error .keyboardInterrupt
  | none => .ok ()

/-- The `try:` block of `main` (lines 153-173): iterate over `files`
(raising `TypeError` when `-cpp` was absent and `files` is `None`),
wait for the queue to drain, and compute `return_code`. `results n` is
the exit status of the clang-tidy invocation on file `n`. It returns
`return_code` exactly when the dispatcher observed the drained queue. -/
def tryBody (cpp : Option (List String)) (patterns : List String)
    (results : String → Nat) (intr : Option Nat) : Except PyExc Nat :=
  match cpp with
  | none => .error (.typeError "argument of type NoneType is not iterable")
  | some files => do
      let selected := files.filter (fileSelect patterns)
      let pending ← enqueuePhase selected intr
      let _ ← joinPhase pending
      let failed := selected.filter (fun n => results n ≠ 0)
      .ok (if failed.length ≠ 0 then 1 else 0)

/-- Embedding of `main` (lines 124-186): run the `try:` block; on
`KeyboardInterrupt` print the notice and `os.kill(0, 9)` (SIGKILL);
any other exception is uncaught; otherwise `sys.exit(return_code)`. -/
def pyMain (cpp : Option (List String)) (patterns : List String)
    (results : String → Nat) (intr : Option Nat) : Outcome :=
  match tryBody cpp patterns results intr with
  | .ok rc => .exited rc
  | .error .keyboardInterrupt => .killedBySignal 9 "\nCtrl-C detected, goodbye."
  | .error e => .uncaughtException e

/-! Section: Theorems -/

/-- One dispatcher step preserves the multiset (in fact the list) of
selected names distributed over processed + queued + still-to-filter. -/
lemma dispatchStep_names (maxTask : Nat) (patterns : List String)
    (s s2 : DispatchState) (a : SchedAction)
    (h : dispatchStep maxTask patterns s a = some s2) :
    s2.processed.map Prod.snd ++ s2.queued ++
        s2.toEnqueue.filter (fileSelect patterns) =
      s.processed.map Prod.snd ++ s.queued ++
        s.toEnqueue.filter (fileSelect patterns) := by
  cases a with
  | enq =>
      cases hE : s.toEnqueue with
      | nil => simp [dispatchStep, hE] at h
      | cons name rest =>
          by_cases hsel : fileSelect patterns name
          · by_cases hlen : s.queued.length < maxTask
            · simp only [dispatchStep, hE, hsel, hlen, if_true] at h
              cases h
              simp [List.filter_cons, hsel, List.append_assoc]
            · simp [dispatchStep, hE, hsel, hlen] at h
          · simp only [dispatchStep, hE, hsel, if_false, Bool.false_eq_true] at h
            cases h
            simp [List.filter_cons, hsel]
  | deq w =>
      by_cases hw : w < maxTask
      · cases hQ : s.queued with
        | nil => simp [dispatchStep, hQ, hw] at h
        | cons name rest =>
            simp only [dispatchStep, hQ, hw, if_true] at h
            cases h
            simp [List.append_assoc]
      · simp [dispatchStep, hw] at h

/-- One dispatcher step only records worker ids below the pool size. -/
lemma dispatchStep_tids (maxTask : Nat) (patterns : List String)
    (s s2 : DispatchState) (a : SchedAction)
    (h : dispatchStep maxTask patterns s a = some s2)
    (hs : ∀ e ∈ s.processed, e.1 < maxTask) :
    ∀ e ∈ s2.processed, e.1 < maxTask := by
  cases a with
  | enq =>
      cases hE : s.toEnqueue with
      | nil => simp [dispatchStep, hE] at h
      | cons name rest =>
          by_cases hsel : fileSelect patterns name
          · by_cases hlen : s.queued.length < maxTask
            · simp only [dispatchStep, hE, hsel, hlen, if_true] at h
              cases h; simpa using hs
            · simp [dispatchStep, hE, hsel, hlen] at h
          · simp only [dispatchStep, hE, hsel, if_false, Bool.false_eq_true] at h
            cases h; simpa using hs
  | deq w =>
      by_cases hw : w < maxTask
      · cases hQ : s.queued with
        | nil => simp [dispatchStep, hQ, hw] at h
        | cons name rest =>
            simp only [dispatchStep, hQ, hw, if_true] at h
            cases h
            intro e he
            rcases List.mem_append.mp he with h1 | h2
            · exact hs e h1
            · rw [List.mem_singleton] at h2; subst h2; exact hw
      · simp [dispatchStep, hw] at h

/-- A whole schedule preserves the distribution invariant. -/
lemma runSched_names (maxTask : Nat) (patterns : List String) :
    ∀ (acts : List SchedAction) (s s2 : DispatchState),
      runSched maxTask patterns s acts = some s2 →
      s2.processed.map Prod.snd ++ s2.queued ++
          s2.toEnqueue.filter (fileSelect patterns) =
        s.processed.map Prod.snd ++ s.queued ++
          s.toEnqueue.filter (fileSelect patterns)
  | [], s, s2, h => by
      simp only [runSched] at h
      cases h; rfl
  | a :: acts, s, s2, h => by
      rw [runSched] at h
      cases hstep : dispatchStep maxTask patterns s a with
      | none => rw [hstep] at h; cases h
      | some s1 =>
          rw [hstep] at h
          rw [runSched_names maxTask patterns acts s1 s2 h]
          exact dispatchStep_names maxTask patterns s s1 a hstep

/-- A whole schedule only records worker ids below the pool size. -/
lemma runSched_tids (maxTask : Nat) (patterns : List String) :
    ∀ (acts : List SchedAction) (s s2 : DispatchState),
      runSched maxTask patterns s acts = some s2 →
      (∀ e ∈ s.processed, e.1 < maxTask) →
      ∀ e ∈ s2.processed, e.1 < maxTask
  | [], s, s2, h => by
      simp only [runSched] at h
      cases h; exact fun hs => hs
  | a :: acts, s, s2, h => by
      rw [runSched] at h
      cases hstep : dispatchStep maxTask patterns s a with
      | none => rw [hstep] at h; cases h
      | some s1 =>
          rw [hstep] at h
          intro hs
          exact runSched_tids maxTask patterns acts s1 s2 h
            (dispatchStep_tids maxTask patterns s s1 a hstep hs)

/-- Claim C1. For every candidate file list supplied via `-cpp` and every
pool size `maxTask ≥ 1`, in any complete run (a schedule after which
every candidate was offered and the queue is drained, i.e.
`task_queue.join()` has returned) the sequence of processed tasks —
one clang-tidy invocation is launched per processed task, lines
109-112 — is exactly the list of candidates matching the selection
predicate: each matching name is consumed exactly once, each by a
single worker with id below the pool size. -/
theorem dispatch_exactly_once (maxTask : Nat) (patterns files : List String)
    (acts : List SchedAction) (s : DispatchState)
    (hpool : 1 ≤ maxTask)
    (hrun : runSched maxTask patterns (initDispatch files) acts = some s)
    (hdrained : s.isDrained = true) :
    s.processed.map Prod.snd = files.filter (fileSelect patterns) ∧
    s.processed.length = (files.filter (fileSelect patterns)).length ∧
    (∀ n, (s.processed.map Prod.snd).count n =
      (files.filter (fileSelect patterns)).count n) ∧
    ∀ e ∈ s.processed, e.1 < maxTask := by
  have hinv := runSched_names maxTask patterns acts (initDispatch files) s hrun
  simp only [initDispatch, List.map_nil, List.nil_append] at hinv
  have hT : s.toEnqueue = [] := by
    have := hdrained
    simp only [DispatchState.isDrained, Bool.and_eq_true, List.isEmpty_iff] at this
    exact this.1
  have hQ : s.queued = [] := by
    have := hdrained
    simp only [DispatchState.isDrained, Bool.and_eq_true, List.isEmpty_iff] at this
    exact this.2
  rw [hT, hQ] at hinv
  simp only [List.filter_nil, List.append_nil] at hinv
  refine ⟨hinv, ?_, ?_, ?_⟩
  · have := congrArg List.length hinv
    simpa using this
  · intro n; rw [hinv]
  · exact runSched_tids maxTask patterns acts (initDispatch files) s hrun
      (by simp [initDispatch])

/-- Witness for C1: pool size 1, candidates `["apple.cpp", "zoo.hpp"]`
with pattern `"a.*"` (which selects only `"apple.cpp"`), schedule
enqueue–dequeue–enqueue(skipped). -/
theorem dispatch_exactly_once_witness :
    (DispatchState.mk [] [] [((0 : Nat), "apple.cpp")]).processed.map Prod.snd =
        ["apple.cpp", "zoo.hpp"].filter (fileSelect ["a.*"]) ∧
    (DispatchState.mk [] [] [((0 : Nat), "apple.cpp")]).processed.length =
        (["apple.cpp", "zoo.hpp"].filter (fileSelect ["a.*"])).length ∧
    (∀ n, ((DispatchState.mk [] [] [((0 : Nat), "apple.cpp")]).processed.map
        Prod.snd).count n =
      (["apple.cpp", "zoo.hpp"].filter (fileSelect ["a.*"])).count n) ∧
    ∀ e ∈ (DispatchState.mk [] [] [((0 : Nat), "apple.cpp")]).processed,
      e.1 < 1 :=
  dispatch_exactly_once 1 ["a.*"] ["apple.cpp", "zoo.hpp"]
    [.enq, .deq 0, .enq] (DispatchState.mk [] [] [((0 : Nat), "apple.cpp")])
    (by decide) (by decide) (by decide)

/-- The exit code is 0 exactly when no processed task failed. -/
lemma mainExitCode_zero_iff (results : String → Nat)
    (processed : List (Nat × String)) :
    mainExitCode results processed = 0 ↔
      ∀ n ∈ processed.map Prod.snd, results n = 0 := by
  unfold mainExitCode failedFiles
  by_cases hc : ((processed.map Prod.snd).filter
      (fun n => results n ≠ 0)).length ≠ 0
  · rw [if_pos hc]
    constructor
    · intro h; exact absurd h one_ne_zero
    · intro h
      exfalso
      apply hc
      rw [List.length_eq_zero]
      exact List.filter_eq_nil_iff.mpr (fun n hn => by simp [h n hn])
  · rw [if_neg hc]
    push_neg at hc
    have hnil := List.length_eq_zero.mp hc
    constructor
    · intro _ n hn
      by_contra hne
      have hmem : n ∈ (processed.map Prod.snd).filter
          (fun n => results n ≠ 0) :=
        List.mem_filter.mpr ⟨hn, by simpa using hne⟩
      rw [hnil] at hmem
      cases hmem
    · intro _; rfl

/-- The exit code is 1 exactly when some processed task failed. -/
lemma mainExitCode_one_iff (results : String → Nat)
    (processed : List (Nat × String)) :
    mainExitCode results processed = 1 ↔
      ∃ n ∈ processed.map Prod.snd, results n ≠ 0 := by
  unfold mainExitCode failedFiles
  by_cases hc : ((processed.map Prod.snd).filter
      (fun n => results n ≠ 0)).length ≠ 0
  · rw [if_pos hc]
    constructor
    · intro _
      have hne : (processed.map Prod.snd).filter (fun n => results n ≠ 0) ≠ [] := by
        intro h0
        apply hc
        rw [h0]
        rfl
      obtain ⟨n, hmem⟩ := List.exists_mem_of_ne_nil _ hne
      have hf := List.mem_filter.mp hmem
      exact ⟨n, hf.1, by simpa using hf.2⟩
    · intro _; rfl
  · rw [if_neg hc]
    push_neg at hc
    have hnil := List.length_eq_zero.mp hc
    constructor
    · intro h; exact absurd h (by decide)
    · rintro ⟨n, hn, hne⟩
      exfalso
      have hmem : n ∈ (processed.map Prod.snd).filter
          (fun n => results n ≠ 0) :=
        List.mem_filter.mpr ⟨hn, by simpa using hne⟩
      rw [hnil] at hmem
      cases hmem

/-- Claim C2. In any complete run, the process exit code computed by `main`
(lines 152, 172-173, 186) is 0 iff every launched invocation exited with
status 0, and 1 iff at least one exited non-zero — for every pool size
and schedule. `results n` is the exit status of the invocation on file
`n`; by C1's invariant the launched invocations are exactly the selected
candidates. -/
theorem exit_code_iff_failures (maxTask : Nat) (patterns files : List String)
    (acts : List SchedAction) (s : DispatchState) (results : String → Nat)
    (hpool : 1 ≤ maxTask)
    (hrun : runSched maxTask patterns (initDispatch files) acts = some s)
    (hdrained : s.isDrained = true) :
    (mainExitCode results s.processed = 0 ↔
      ∀ n ∈ files.filter (fileSelect patterns), results n = 0) ∧
    (mainExitCode results s.processed = 1 ↔
      ∃ n ∈ files.filter (fileSelect patterns), results n ≠ 0) := by
  have hinv := runSched_names maxTask patterns acts (initDispatch files) s hrun
  simp only [initDispatch, List.map_nil, List.nil_append] at hinv
  have hd := hdrained
  simp only [DispatchState.isDrained, Bool.and_eq_true, List.isEmpty_iff] at hd
  rw [hd.1, hd.2] at hinv
  simp only [List.filter_nil, List.append_nil] at hinv
  constructor
  · rw [mainExitCode_zero_iff, hinv]
  · rw [mainExitCode_one_iff, hinv]

/-- Witness for C2: one selected candidate whose invocation fails. -/
theorem exit_code_iff_failures_witness :
    (mainExitCode (fun _ => 1) (DispatchState.mk [] [] [((0 : Nat), "apple.cpp")]).processed = 0 ↔
      ∀ n ∈ ["apple.cpp"].filter (fileSelect ["a.*"]), (fun _ => 1 : String → Nat) n = 0) ∧
    (mainExitCode (fun _ => 1) (DispatchState.mk [] [] [((0 : Nat), "apple.cpp")]).processed = 1 ↔
      ∃ n ∈ ["apple.cpp"].filter (fileSelect ["a.*"]), (fun _ => 1 : String → Nat) n ≠ 0) :=
  exit_code_iff_failures 1 ["a.*"] ["apple.cpp"] [.enq, .deq 0]
    (DispatchState.mk [] [] [((0 : Nat), "apple.cpp")]) (fun _ => 1)
    (by decide) (by decide) (by decide)

/-- Claim C3, counterexample. The claim states that the predicate built
from the patterns `["a.*", "b.*"]` does **not** select `"carrot.cpp"`.
It does: line 167 uses `file_name_re.search(name)`, which matches the
pattern anywhere in the name, and branch `a.*` matches `"carrot.cpp"`
from its second character on. -/
theorem fileSelect_selects_carrot :
    fileSelect ["a.*", "b.*"] "carrot.cpp" = true := by decide

/-- Claim C3, amended. A candidate name is selected iff the alternation of
all positional patterns matches somewhere in the name (`re.search`,
unanchored). The predicate built from `["a.*", "b.*"]` — whose compiled
form is the alternation of the two parsed branches — selects
`"apple.cpp"`, `"banana.cpp"` and also `"carrot.cpp"` (the `a.*` branch
matches inside it); a name containing neither an `a` nor a `b`, such as
`"zoo.hpp"`, is not selected. -/
theorem fileSelect_alternation_examples :
    compileFileRe ["a.*", "b.*"] =
      some (.alt (.cat (.ch 'a') (.cat (.star .any) .eps))
                 (.cat (.ch 'b') (.cat (.star .any) .eps))) ∧
    (∀ name : String, fileSelect ["a.*", "b.*"] name =
      (RE.alt (.cat (.ch 'a') (.cat (.star .any) .eps))
              (.cat (.ch 'b') (.cat (.star .any) .eps))).research name.toList) ∧
    fileSelect ["a.*", "b.*"] "apple.cpp" = true ∧
    fileSelect ["a.*", "b.*"] "banana.cpp" = true ∧
    fileSelect ["a.*", "b.*"] "carrot.cpp" = true ∧
    fileSelect ["a.*", "b.*"] "zoo.hpp" = false :=
  ⟨by decide, fun _ => rfl, by decide, by decide, by decide, by decide⟩

/-- Claim C4, counterexample. The claim states that for the empty-string
header-filter pattern no `-header-filter=` token is appended. Line 74
tests `header_filter is not None`, not non-emptiness, so the empty
string produces the bare token `-header-filter=`. -/
theorem get_tidy_invocation_empty_header_filter :
    get_tidy_invocation "foo.cpp" "clang-tidy" (some "") =
      ["clang-tidy", "foo.cpp", "-header-filter=", "--", "-Icugl/include"] ∧
    "-header-filter=" ∈ get_tidy_invocation "foo.cpp" "clang-tidy" (some "") :=
  ⟨by decide, by decide⟩

/-- A list is a prefix (in the `isPrefixOf` sense) of itself followed by
anything. -/
lemma isPrefixOf_append_self {A : Type} [BEq A] [LawfulBEq A] :
    ∀ (l1 l2 : List A), l1.isPrefixOf (l1 ++ l2) = true
  | [], _ => by simp [List.isPrefixOf]
  | a :: l1, l2 => by simp [List.isPrefixOf, isPrefixOf_append_self l1 l2]

/-- A token of the invocation vector carrying a header-filter option. -/
def isHeaderFilterToken (a : String) : Bool :=
  "-header-filter=".toList.isPrefixOf a.toList

/-- Claim C4, amended. The invocation builder appends a
`-header-filter=<pattern>` token exactly when the `-header-filter`
option was supplied (the pattern is not `None`), the empty-string
pattern included: omitting the option yields a vector with no
`-header-filter=` token, and supplying pattern `p` yields exactly one
such token, namely `"-header-filter=" ++ p` verbatim (provided the
filename and the binary path do not themselves begin with
`-header-filter=`). -/
theorem header_filter_token_iff_supplied (f b : String) (p : Option String)
    (hf : isHeaderFilterToken f = false) (hb : isHeaderFilterToken b = false) :
    (get_tidy_invocation f b p).countP isHeaderFilterToken =
      (if p.isSome then 1 else 0) ∧
    ∀ q, p = some q → "-header-filter=" ++ q ∈ get_tidy_invocation f b p := by
  have hsep : isHeaderFilterToken "--" = false := by decide
  have hinc : isHeaderFilterToken "-Icugl/include" = false := by decide
  have htok : ∀ q : String, isHeaderFilterToken ("-header-filter=" ++ q) = true := by
    intro q
    unfold isHeaderFilterToken
    simp only [String.toList, String.data_append]
    exact isPrefixOf_append_self _ _
  cases p with
  | none =>
      constructor
      · simp [get_tidy_invocation, List.countP_cons, hf, hb, hsep, hinc,
          List.countP_nil]
      · intro q hq; cases hq
  | some q =>
      constructor
      · simp [get_tidy_invocation, List.countP_cons, hf, hb, hsep, hinc,
          htok q, List.countP_nil]
      · intro q' hq'
        cases hq'
        simp [get_tidy_invocation]

/-- Witness for C4 (amended): concrete filename, binary and pattern. -/
theorem header_filter_token_iff_supplied_witness :
    (get_tidy_invocation "foo.cpp" "clang-tidy" (some "llvm/.*")).countP
        isHeaderFilterToken = 1 ∧
    "-header-filter=" ++ "llvm/.*" ∈
      get_tidy_invocation "foo.cpp" "clang-tidy" (some "llvm/.*") :=
  have h := header_filter_token_iff_supplied "foo.cpp" "clang-tidy"
    (some "llvm/.*") (by decide) (by decide)
  ⟨h.1, h.2 "llvm/.*" rfl⟩

/-- Claim C5. For every filename, binary path and header-filter value, the
invocation vector starts with the binary path then the filename
(`argv[0]`, `argv[1]`), ends with the literal separator `"--"` followed
by the fixed compiler include flag `"-Icugl/include"` as its final
element, and has length 5 or 4 according to whether the optional
header-filter token is present. (`get_tidy_invocation` is a pure Lean
function of its three arguments, mirroring lines 71-78, which only
build and return a list.) -/
theorem get_tidy_invocation_structure (f b : String) (hf : Option String) :
    (get_tidy_invocation f b hf).take 2 = [b, f] ∧
    (get_tidy_invocation f b hf).drop ((get_tidy_invocation f b hf).length - 2) =
      ["--", "-Icugl/include"] ∧
    (get_tidy_invocation f b hf).getLast? = some "-Icugl/include" ∧
    (get_tidy_invocation f b hf).length = if hf.isSome then 5 else 4 := by
  cases hf <;> simp [get_tidy_invocation]

/-- Claim C6. (code bug) The spec requires a launch failure to be recorded
in the Failure List like a non-zero exit, with the worker loop
continuing. The code has no `try`/`except` around `subprocess.Popen`
(lines 108-121): when the binary cannot be started the `OSError`
propagates out of the iteration — the filename is **not** appended to
`failed_files`, nothing is emitted, `queue.task_done()` is never called
(so `task_queue.join()` can hang), and the worker thread dies. -/
theorem launch_failure_kills_worker_iteration :
    run_tidy_iter missingBinaryLauncher "clang-tidy" none 0 "foo.cpp" [] =
      .error (.oserror "No such file or directory") ∧
    (run_tidy_iter missingBinaryLauncher "clang-tidy" none 0 "foo.cpp" []).isOk
      = false :=
  ⟨rfl, rfl⟩

/-- Splitting an `evalTrace` run at a list append. -/
lemma evalTrace_append (xs ys : List Ev) :
    ∀ lock, evalTrace lock (xs ++ ys) =
      match evalTrace lock xs with
      | some l => evalTrace l ys
      | none => none := by
  induction xs with
  | nil => intro lock; rfl
  | cons e xs ih =>
      intro lock
      cases hs : sinkStep lock e with
      | none => simp [evalTrace, hs]
      | some l2 => simp [evalTrace, hs, ih l2]

/-- While thread `t` holds the lock and has not yet released it, every
event that touches the output streams is performed by `t`. -/
lemma locked_section_tids (t : Nat) :
    ∀ (mid post : List Ev),
      validTrace (some t) (mid ++ ⟨t, .release⟩ :: post) = true →
      (∀ e ∈ mid, ¬(e.tid = t ∧ e.act = .release)) →
      ∀ e ∈ mid, e.act.needsLock = true → e.tid = t := by
  intro mid
  induction mid with
  | nil => intro post _ _ e he; cases he
  | cons e0 mid ih =>
      intro post hval hnorel e he hneed
      have hstep : ∃ l2, sinkStep (some t) e0 = some l2 ∧
          validTrace l2 (mid ++ ⟨t, .release⟩ :: post) = true := by
        unfold validTrace at hval ⊢
        rw [List.cons_append] at hval
        unfold evalTrace at hval
        cases hs : sinkStep (some t) e0 with
        | none => rw [hs] at hval; simp at hval
        | some l2 => rw [hs] at hval; exact ⟨l2, rfl, hval⟩
      obtain ⟨l2, hs, hrest⟩ := hstep
      have he0 : (e0.act.needsLock = true → e0.tid = t) ∧ l2 = some t := by
        cases ha : e0.act with
        | acquire => simp [sinkStep, ha] at hs
        | release =>
            simp only [sinkStep, ha] at hs
            by_cases hto : t = e0.tid
            · exact absurd ⟨hto.symm, ha⟩ (hnorel e0 (List.mem_cons_self _ _))
            · simp [hto] at hs
        | writeOut s =>
            simp only [sinkStep, ha, SinkAction.needsLock, if_true] at hs
            by_cases hto : t = e0.tid
            · rw [if_pos hto] at hs
              injection hs with h2
              exact ⟨fun _ => hto.symm, h2.symm⟩
            · rw [if_neg hto] at hs
              exact Option.noConfusion hs
        | flushOut =>
            simp only [sinkStep, ha, SinkAction.needsLock, if_true] at hs
            by_cases hto : t = e0.tid
            · rw [if_pos hto] at hs
              injection hs with h2
              exact ⟨fun _ => hto.symm, h2.symm⟩
            · rw [if_neg hto] at hs
              exact Option.noConfusion hs
        | writeErr s =>
            simp only [sinkStep, ha, SinkAction.needsLock, if_true] at hs
            by_cases hto : t = e0.tid
            · rw [if_pos hto] at hs
              injection hs with h2
              exact ⟨fun _ => hto.symm, h2.symm⟩
            · rw [if_neg hto] at hs
              exact Option.noConfusion hs
        | appendFail n =>
            simp only [sinkStep, ha, SinkAction.needsLock] at hs
            injection hs with h2
            exact ⟨fun hcontra => (by simp [SinkAction.needsLock] at hcontra),
              h2.symm⟩
        | taskDone =>
            simp only [sinkStep, ha, SinkAction.needsLock] at hs
            injection hs with h2
            exact ⟨fun hcontra => (by simp [SinkAction.needsLock] at hcontra),
              h2.symm⟩
      rcases List.mem_cons.mp he with rfl | hmem
      · exact he0.1 hneed
      · exact ih post (he0.2 ▸ hrest)
          (fun e' he' => hnorel e' (List.mem_cons_of_mem _ he')) e hmem hneed

/-- Claim C7. Output-sink atomicity (lines 116-120). First part: in any
valid trace, inside a thread's `with lock:` region — from its `acquire`
to the matching `release` — every stream operation (the combined
header+stdout `write`, the `flush`, the stderr `write`) is performed by
that thread, so the header+stdout writes of two distinct reports can
never interleave. Second part: when the captured stderr is non-empty,
the events of one report are exactly acquire, the single header+stdout
write, a flush of standard output, the stderr write, release — the
stderr write lies inside the same exclusive region, after the flush. -/
theorem sink_reports_are_atomic :
    (∀ (t : Nat) (pre mid post : List Ev),
        validTrace none
          (pre ++ ⟨t, .acquire⟩ :: (mid ++ ⟨t, .release⟩ :: post)) = true →
        (∀ e ∈ mid, ¬(e.tid = t ∧ e.act = .release)) →
        ∀ e ∈ mid, e.act.needsLock = true → e.tid = t) ∧
    (∀ (t : Nat) (invocation : List String) (out err : String), err ≠ "" →
        emitEvents t invocation out err =
          [⟨t, .acquire⟩,
           ⟨t, .writeOut (String.intercalate " " invocation ++ "\n" ++ out)⟩,
           ⟨t, .flushOut⟩, ⟨t, .writeErr err⟩, ⟨t, .release⟩]) := by
  constructor
  · intro t pre mid post hval hnorel
    unfold validTrace at hval
    rw [evalTrace_append] at hval
    cases hpre : evalTrace none pre with
    | none => rw [hpre] at hval; simp at hval
    | some l1 =>
        rw [hpre] at hval
        unfold evalTrace at hval
        cases l1 with
        | some o => simp [sinkStep] at hval
        | none =>
            simp only [sinkStep] at hval
            exact locked_section_tids t mid post hval hnorel
  · intro t invocation out err herr
    have hlen : err.length > 0 := by
      cases hd : err.data with
      | nil => exact absurd (by cases err; simp_all) herr
      | cons c cs => simp [String.length, hd]
    simp [emitEvents, hlen]

/-- Witness for C7: a valid trace where thread 2 appends to
`failed_files` while thread 1 holds the lock, and a concrete report
with non-empty stderr. -/
theorem sink_reports_are_atomic_witness :
    (∀ e ∈ ([⟨2, .appendFail "bar.cpp"⟩] : List Ev),
      e.act.needsLock = true → e.tid = 1) ∧
    emitEvents 1 ["clang-tidy", "foo.cpp", "--", "-Icugl/include"] "out"
        "warning" =
      [⟨1, .acquire⟩,
       ⟨1, .writeOut (String.intercalate " "
         ["clang-tidy", "foo.cpp", "--", "-Icugl/include"] ++ "\n" ++ "out")⟩,
       ⟨1, .flushOut⟩, ⟨1, .writeErr "warning"⟩, ⟨1, .release⟩] :=
  ⟨sink_reports_are_atomic.1 1 [] [⟨2, .appendFail "bar.cpp"⟩] []
      (by decide) (by decide),
   sink_reports_are_atomic.2 1 ["clang-tidy", "foo.cpp", "--", "-Icugl/include"]
      "out" "warning" (by decide)⟩

/-- A pending interrupt oracle always fires: tracking it through the
enqueue loop either raises `KeyboardInterrupt` there or leaves it
pending for the `join`. -/
lemma enqueuePhase_interrupt :
    ∀ (l : List String) (k : Nat),
      enqueuePhase l (some k) = .error .keyboardInterrupt ∨
      ∃ k', enqueuePhase l (some k) = .ok (some k')
  | [], k => .inr ⟨k, rfl⟩
  | _ :: rest, 0 => .inl rfl
  | _ :: rest, k + 1 => enqueuePhase_interrupt rest k

/-- Claim C8. An external interrupt delivered during the enqueue or drain
phase — here: the oracle is `some k`, raising `KeyboardInterrupt` in
the main thread either inside the enqueue loop or while blocked in
`task_queue.join()` — makes the process die by signal 9 (`os.kill(0, 9)`,
line 181) right after the diagnostic notice is printed (line 178); the
`try:` block never returns a value, i.e. the dispatcher never reports a
drained queue and `sys.exit(return_code)` is never reached. -/
theorem interrupt_kills_whole_process (files patterns : List String)
    (results : String → Nat) (k : Nat) :
    pyMain (some files) patterns results (some k) =
      .killedBySignal 9 "\nCtrl-C detected, goodbye." ∧
    (tryBody (some files) patterns results (some k)).isOk = false := by
  have hbody : tryBody (some files) patterns results (some k) =
      .error .keyboardInterrupt := by
    rcases enqueuePhase_interrupt (files.filter (fileSelect patterns)) k with
      h | ⟨k', h⟩
    · simp only [tryBody]
      rw [h]
      rfl
    · simp only [tryBody]
      rw [h]
      rfl
  constructor
  · unfold pyMain
    rw [hbody]
  · rw [hbody]
    rfl

/-- Claim C9. `-cpp` is declared with `nargs='*'` and no default
(line 139), so when the option is absent `args.cpp` — and hence `files`
(line 144) — is `None`, not `[]`: the enqueue loop `for name in files`
(line 166) raises `TypeError` (uncaught, since only `KeyboardInterrupt`
is handled), so the run never reaches `sys.exit(0)`. A successful
exit-0 run requires `-cpp` to be present, possibly with zero filenames:
with `files = []` the run exits 0. -/
theorem missing_cpp_raises_type_error (patterns : List String)
    (results : String → Nat) :
    pyMain none patterns results none =
      .uncaughtException
        (.typeError "argument of type NoneType is not iterable") ∧
    pyMain (some []) patterns results none = .exited 0 :=
  ⟨rfl, rfl⟩

/-- The `merged` accumulator built with `list.extend` over the parsed
directory contents equals the flat concatenation of the `Diagnostics`
lists of the truthy files. -/
lemma merge_foldl {Diag : Type} :
    ∀ (l : List (Option (YamlDoc Diag))) (acc : List Diag),
      l.foldl
        (fun acc content =>
          match content with
          | none => acc
          | some doc => acc ++ (doc.diagnostics.getD []))
        acc =
      acc ++ ((l.filterMap id).map (fun d => d.diagnostics.getD [])).flatten
  | [], acc => by simp
  | none :: rest, acc => by
      rw [List.foldl_cons, merge_foldl rest acc]
      simp
  | some doc :: rest, acc => by
      rw [List.foldl_cons, merge_foldl rest (acc ++ (doc.diagnostics.getD []))]
      simp

/-- Claim C10. `merge_replacement_files` (lines 81-103) writes to the
target a mapping whose `MainSourceFile` is the empty string and whose
`Diagnostics` is the concatenation of the `Diagnostics` lists of every
non-empty (truthy) `*.yaml` file of the directory, whenever that
concatenation is non-empty; otherwise it truncates the target to empty
content. -/
theorem merge_replacement_files_contents {Diag : Type}
    (yamlContents : List (Option (YamlDoc Diag))) :
    merge_replacement_files yamlContents =
      if (((yamlContents.filterMap id).map
            (fun d => d.diagnostics.getD [])).flatten).isEmpty
      then .emptied
      else .dumped ""
        (((yamlContents.filterMap id).map
            (fun d => d.diagnostics.getD [])).flatten) := by
  unfold merge_replacement_files
  rw [merge_foldl]
  simp

end RunClangTidy
